import Mathlib

/-!
Verification of the Dashboard-QP repository's charting and cleanup scripts.

The Python sources (`hdfc_viz.py`, `generate_dashboard.py`, `remove_subtotal.py`)
are shallowly embedded below: pure fragments become Lean functions over `List`,
`ℚ`, `String`; pandas cells become an inductive `Cell`; exceptions become
`Except`/`Option`.  Matplotlib objects are not modelled; what is modelled is the
data each call computes and passes on (groupings, layouts, colors, labels,
formatted values, save paths).
-/

/-! ## Column grouping (`generate_dashboard.py` main loop, `create_dashboard`) -/

/-- Embedding of the grouping loop in `generate_dashboard.py` (`main`, lines
56-64): `for i in range(0, n_cols, 4): group = cols[i:i+4]`, appending each
non-empty group.  Each iteration takes the next four columns; for a non-empty
list `x :: xs`, `(x :: xs).drop 4 = xs.drop 3`. -/
def chunkGroups {α : Type} : List α → List (List α)
  | [] => []
  | x :: xs => (x :: xs).take 4 :: chunkGroups (xs.drop 3)
termination_by l => l.length
decreasing_by simp; omega

/-- Embedding of the automatic column grouping in `create_dashboard`
(`hdfc_viz.py`, lines 461-472): a table with at most 4 columns yields the single
group `[cols]`; otherwise the same range-step-4 loop as in
`generate_dashboard.py` runs. -/
def createDashboardGroups (cols : List String) : List (List String) :=
  if cols.length ≤ 4 then [cols] else chunkGroups cols

theorem chunkGroups_flatten {α : Type} (l : List α) : (chunkGroups l).flatten = l := by
  induction l using chunkGroups.induct with
  | case1 => simp [chunkGroups]
  | case2 x xs ih =>
    rw [chunkGroups]
    simp only [List.flatten_cons, ih, List.take_succ_cons]
    simp [List.take_append_drop]

theorem chunkGroups_length {α : Type} (l : List α) :
    (chunkGroups l).length = (l.length + 3) / 4 := by
  induction l using chunkGroups.induct with
  | case1 => simp [chunkGroups]
  | case2 x xs ih =>
    rw [chunkGroups]
    simp only [List.length_cons, ih, List.length_drop]
    omega

theorem chunkGroups_group_le {α : Type} (l : List α) :
    ∀ g ∈ chunkGroups l, g.length ≤ 4 := by
  induction l using chunkGroups.induct with
  | case1 => simp [chunkGroups]
  | case2 x xs ih =>
    rw [chunkGroups]
    intro g hg
    rcases List.mem_cons.mp hg with h | h
    · subst h
      exact List.length_take_le 4 (x :: xs)
    · exact ih g h

theorem createDashboardGroups_eq_chunk (cols : List String) (h : cols ≠ []) :
    createDashboardGroups cols = chunkGroups cols := by
  unfold createDashboardGroups
  split
  · rename_i hle
    match cols, h with
    | x :: xs, _ =>
      rw [chunkGroups]
      have hxs : xs.length ≤ 3 := by simp at hle; omega
      have hdrop : xs.drop 3 = [] := List.drop_eq_nil_of_le hxs
      have htake : (x :: xs).take 4 = x :: xs := by
        apply List.take_of_length_le
        simp; omega
      rw [hdrop, htake, chunkGroups]
  · rfl

/-- C1 (counterexample): on a table with 0 columns, `create_dashboard`'s
automatic grouping produces one (empty) group, not `ceil(0/4) = 0` groups, so
the claim fails at N = 0 (the loop in `generate_dashboard.py` does produce 0
groups there, so the two steps are not identical either). -/
theorem C1_counterexample :
    createDashboardGroups [] = [([] : List String)] ∧
    (createDashboardGroups ([] : List String)).length = 1 ∧
    (([] : List String).length + 3) / 4 = 0 ∧
    chunkGroups ([] : List String) = [] := by
  refine ⟨rfl, rfl, rfl, ?_⟩
  rw [chunkGroups]

/-- C1 (amended): for every table with N ≥ 1 columns, the automatic grouping of
`create_dashboard` coincides with the loop of `generate_dashboard.py`, produces
exactly `ceil(N/4) = (N+3)/4` groups, each of length at most 4, and the
concatenation of the groups in order is the original column list (the loop in
`generate_dashboard.py` satisfies the same bounds at N = 0 as well, giving 0
groups, by `chunkGroups_length`). -/
theorem C1_column_grouping (cols : List String) (h : cols ≠ []) :
    createDashboardGroups cols = chunkGroups cols ∧
    (createDashboardGroups cols).length = (cols.length + 3) / 4 ∧
    (∀ g ∈ createDashboardGroups cols, g.length ≤ 4) ∧
    (createDashboardGroups cols).flatten = cols := by
  have he := createDashboardGroups_eq_chunk cols h
  refine ⟨he, ?_, ?_, ?_⟩
  · rw [he, chunkGroups_length]
  · rw [he]; exact chunkGroups_group_le cols
  · rw [he]; exact chunkGroups_flatten cols

/-- Witness for C1 at a concrete 5-column table. -/
theorem C1_column_grouping_witness :
    createDashboardGroups ["a", "b", "c", "d", "e"] =
      chunkGroups ["a", "b", "c", "d", "e"] ∧
    (createDashboardGroups ["a", "b", "c", "d", "e"]).length = 2 ∧
    (∀ g ∈ createDashboardGroups ["a", "b", "c", "d", "e"], g.length ≤ 4) ∧
    (createDashboardGroups ["a", "b", "c", "d", "e"]).flatten =
      ["a", "b", "c", "d", "e"] := by
  obtain ⟨h1, h2, h3, h4⟩ :=
    C1_column_grouping ["a", "b", "c", "d", "e"] (by decide)
  exact ⟨h1, h2, h3, h4⟩

/-! ## Automatic subplot layout (`plot_bar_chart`, lines 229-238 and 361-363) -/

/-- Embedding of the automatic layout selection in `plot_bar_chart` (lines
229-238), as a function of the number `n` of valid columns: `(1, n)` for
`n ≤ 2`, `(2, 2)` for `n ≤ 4`, else `cols = min(3, n)` and
`rows = (n + cols - 1) // cols`. -/
def autoLayout (n : ℕ) : ℕ × ℕ :=
  if n ≤ 2 then (1, n)
  else if n ≤ 4 then (2, 2)
  else ((n + min 3 n - 1) / min 3 n, min 3 n)

/-- Embedding of the surplus-axis removal in `plot_bar_chart` (lines 361-363):
the figure has `rows * cols` flattened axes, and the loop
`for j in range(len(valid_columns), len(axes)): fig.delaxes(axes[j])` removes
every axis with index `≥ n`, leaving exactly the axes of indices `< n`. -/
def axesAfterRemoval (n : ℕ) : List ℕ :=
  (List.range ((autoLayout n).1 * (autoLayout n).2)).filter (fun j => decide (j < n))

theorem filter_range_lt (n total : ℕ) (h : n ≤ total) :
    (List.range total).filter (fun j => decide (j < n)) = List.range n := by
  obtain ⟨k, rfl⟩ := Nat.le.dest h
  rw [List.range_add, List.filter_append]
  have h1 : (List.range n).filter (fun j => decide (j < n)) = List.range n := by
    rw [List.filter_eq_self]
    intro a ha
    simp only [List.mem_range] at ha
    simpa using ha
  have h2 : ((List.range k).map (fun x => n + x)).filter (fun j => decide (j < n)) = [] := by
    rw [List.filter_eq_nil_iff]
    intro a ha
    simp only [List.mem_map] at ha
    obtain ⟨x, _, rfl⟩ := ha
    simp
  rw [h1, h2, List.append_nil]

/-- C7: with layout `None` or `'auto'`, the grid depends only on the number `n`
of valid columns (`n ≥ 1`, since `plot_bar_chart` raises before this point when
no valid column exists): `(1, n)` for `n ≤ 2`, `(2, 2)` for `3 ≤ n ≤ 4`,
`(ceil(n/3), 3) = ((n+2)/3, 3)` for `n ≥ 5`; in every case `rows * cols ≥ n`,
and after the removal loop exactly the `n` axes of the valid columns remain. -/
theorem C7_auto_layout (n : ℕ) (h : 1 ≤ n) :
    (n ≤ 2 → autoLayout n = (1, n)) ∧
    (3 ≤ n ∧ n ≤ 4 → autoLayout n = (2, 2)) ∧
    (5 ≤ n → autoLayout n = ((n + 2) / 3, 3)) ∧
    n ≤ (autoLayout n).1 * (autoLayout n).2 ∧
    axesAfterRemoval n = List.range n := by
  have hprod : n ≤ (autoLayout n).1 * (autoLayout n).2 := by
    unfold autoLayout
    split
    · simp
    · split
      · rename_i h2 h4; simp; omega
      · rename_i h2 h4
        have hmin : min 3 n = 3 := by omega
        rw [hmin]
        simp only
        omega
  refine ⟨?_, ?_, ?_, hprod, ?_⟩
  · intro h2; unfold autoLayout; simp [h2]
  · intro ⟨h3, h4⟩; unfold autoLayout
    rw [if_neg (by omega), if_pos h4]
  · intro h5; unfold autoLayout
    have hmin : min 3 n = 3 := by omega
    rw [if_neg (by omega), if_neg (by omega), hmin]
    have h31 : n + 3 - 1 = n + 2 := by omega
    rw [h31]
  · exact filter_range_lt n _ hprod

/-- Witness for C7 at `n = 7` valid columns. -/
theorem C7_auto_layout_witness :
    (7 ≤ 2 → autoLayout 7 = (1, 7)) ∧
    (3 ≤ 7 ∧ 7 ≤ 4 → autoLayout 7 = (2, 2)) ∧
    (5 ≤ 7 → autoLayout 7 = ((7 + 2) / 3, 3)) ∧
    7 ≤ (autoLayout 7).1 * (autoLayout 7).2 ∧
    axesAfterRemoval 7 = List.range 7 :=
  C7_auto_layout 7 (by decide)

/-! ## Column validation (`plot_bar_chart`, lines 213-216 and 253-257) -/

/-- Embedding of `valid_columns = [col for col in columns if col in data.columns]`
(`plot_bar_chart`, line 214). -/
def validColumns (columns dfCols : List String) : List String :=
  columns.filter (fun c => dfCols.contains c)

/-- Embedding of the validation at the top of `plot_bar_chart` (lines 213-216):
when no requested column exists in the dataframe a `ValueError` is raised
(modelled as `Except.error`); otherwise the chart is built from the remaining
valid columns. -/
def plotBarChartValidation (columns dfCols : List String) : Except String (List String) :=
  if (validColumns columns dfCols).isEmpty then
    Except.error "None of the specified columns exist in the dataframe"
  else
    Except.ok (validColumns columns dfCols)

/-- C8: `plot_bar_chart` raises `ValueError` if and only if none of the
requested column names occur in the dataframe's columns; otherwise the missing
names are silently dropped and the chart is built from the valid columns in
their requested order (the result is a sublist of the request, containing
exactly the requested names present in the dataframe). -/
theorem C8_invalid_columns (columns dfCols : List String) :
    ((∃ e, plotBarChartValidation columns dfCols = Except.error e) ↔
      ∀ c ∈ columns, c ∉ dfCols) ∧
    ∀ valid, plotBarChartValidation columns dfCols = Except.ok valid →
      valid = validColumns columns dfCols ∧ valid.Sublist columns ∧
      ∀ c, c ∈ valid ↔ (c ∈ columns ∧ c ∈ dfCols) := by
  constructor
  · constructor
    · rintro ⟨e, he⟩ c hc hmem
      unfold plotBarChartValidation at he
      split at he
      · rename_i hempty
        rw [List.isEmpty_iff, validColumns, List.filter_eq_nil_iff] at hempty
        have := hempty c hc
        simp only [List.elem_eq_mem, decide_eq_true_eq] at this
        exact this hmem
      · exact Except.noConfusion he
    · intro hnone
      refine ⟨"None of the specified columns exist in the dataframe", ?_⟩
      unfold plotBarChartValidation
      rw [if_pos]
      rw [List.isEmpty_iff, validColumns, List.filter_eq_nil_iff]
      intro c hc
      simp only [List.elem_eq_mem, decide_eq_true_eq]
      exact hnone c hc
  · intro valid hok
    unfold plotBarChartValidation at hok
    split at hok
    · exact Except.noConfusion hok
    · have hv : valid = validColumns columns dfCols := (Except.ok.injEq _ _).mp hok.symm
      refine ⟨hv, ?_, ?_⟩
      · rw [hv]; exact List.filter_sublist columns
      · intro c
        rw [hv, validColumns, List.mem_filter]
        simp

/-- Witness for C8: a request with one valid and one missing column. -/
theorem C8_invalid_columns_witness :
    (∀ valid, plotBarChartValidation ["x", "a"] ["a", "b"] = Except.ok valid →
      valid = validColumns ["x", "a"] ["a", "b"]) ∧
    validColumns ["x", "a"] ["a", "b"] = ["a"] := by
  refine ⟨fun valid hok => ((C8_invalid_columns ["x", "a"] ["a", "b"]).2 valid hok).1, ?_⟩
  decide

/-! ## Color schemes and gradient colors (`hdfc_viz.py`, lines 30-45 and 87-106) -/

/-- The `'corporate'` palette of `COLOR_SCHEMES` (`hdfc_viz.py`, line 31). -/
def corporateColors : List String :=
  ["#003f5c", "#2f4b7c", "#665191", "#a05195", "#d45087", "#f95d6a", "#ff7c43", "#ffa600"]

/-- Embedding of the `COLOR_SCHEMES` dict (`hdfc_viz.py`, lines 30-37) as an
association list in declaration order. -/
def COLOR_SCHEMES : List (String × List String) :=
  [("corporate", corporateColors),
   ("vibrant", ["#1f77b4", "#ff7f0e", "#2ca02c", "#d62728", "#9467bd", "#8c564b", "#e377c2", "#7f7f7f"]),
   ("pastel", ["#66c2a5", "#fc8d62", "#8da0cb", "#e78ac3", "#a6d854", "#ffd92f", "#e5c494", "#b3b3b3"]),
   ("hdfc_brand", ["#ED232A", "#0033A0", "#808080", "#FF6600", "#003366", "#FFCC00", "#00CCFF", "#009900"]),
   ("gradient_blue", ["#f7fbff", "#deebf7", "#c6dbef", "#9ecae1", "#6baed6", "#4292c6", "#2171b5", "#084594"]),
   ("gradient_red", ["#fff5f0", "#fee0d2", "#fcbba1", "#fc9272", "#fb6a4a", "#ef3b2c", "#cb181d", "#99000d"])]

/-- The `color_scheme` argument of `_get_gradient_colors`: either a scheme name
(a Python `str`) or an explicit list of colors (a Python `list`). -/
inductive ColorArg : Type
  | name (s : String)
  | list (cs : List String)

/-- A color produced by `_get_gradient_colors`: either one of the palette's hex
strings (`colors[:num_categories]`), or an interpolated color
`base_cmap(i / (n - 1))` of the `LinearSegmentedColormap` built from the
palette's first and last colors (`hdfc_viz.py`, lines 100-103). -/
inductive Color : Type
  | hex (s : String)
  | interp (first last : String) (i n : ℕ)
deriving DecidableEq

/-- Embedding of the palette selection in `_get_gradient_colors` (`hdfc_viz.py`,
lines 89-97): an explicit list is used as is, a known name selects its scheme,
and any other name falls back to the `'corporate'` scheme. -/
def baseColors (cs : ColorArg) : List String :=
  match cs with
  | .list l => l
  | .name s =>
    match COLOR_SCHEMES.find? (fun p => p.1 == s) with
    | some p => p.2
    | none => corporateColors

/-- Embedding of `_get_gradient_colors` (`hdfc_viz.py`, lines 87-106).  When the
selected palette has fewer colors than `num_categories`, a gradient between the
palette's first and last colors is sampled at `i / (num_categories - 1)` for
`i < num_categories`; on an empty palette, `colors[0]` raises `IndexError`
(modelled as `none`).  Otherwise the first `num_categories` palette colors are
returned. -/
def getGradientColors (cs : ColorArg) (num : ℕ) : Option (List Color) :=
  if (baseColors cs).length < num then
    match baseColors cs with
    | [] => none
    | c :: rest =>
      some ((List.range num).map (fun i => Color.interp c ((c :: rest).getLastD "") i num))
  else
    some (((baseColors cs).take num).map Color.hex)

theorem baseColors_ne_nil (cs : ColorArg) (h : ∀ l, cs = ColorArg.list l → l ≠ []) :
    baseColors cs ≠ [] := by
  cases cs with
  | list l => exact h l rfl
  | name s =>
    have hall : ∀ q ∈ COLOR_SCHEMES, q.2 ≠ [] := by decide
    show (match COLOR_SCHEMES.find? (fun p => p.1 == s) with
          | some p => p.2
          | none => corporateColors) ≠ []
    cases hf : COLOR_SCHEMES.find? (fun p => p.1 == s) with
    | none => decide
    | some p => exact hall p (List.mem_of_find?_eq_some hf)

/-- C2: for every color scheme argument (a known name, an unrecognised name, or
a non-empty explicit list) and every `num_categories ≥ 1`, `_get_gradient_colors`
returns a list of exactly `num_categories` colors; when the selected palette is
shorter than `num_categories`, the result is the gradient interpolation between
the palette's first and last colors. -/
theorem C2_gradient_palette (cs : ColorArg) (num : ℕ) (h1 : 1 ≤ num)
    (h2 : ∀ l, cs = ColorArg.list l → l ≠ []) :
    ∃ res, getGradientColors cs num = some res ∧ res.length = num ∧
      ((baseColors cs).length < num →
        res = (List.range num).map (fun i =>
          Color.interp ((baseColors cs).headD "") ((baseColors cs).getLastD "") i num)) := by
  have hne := baseColors_ne_nil cs h2
  unfold getGradientColors
  by_cases hlt : (baseColors cs).length < num
  · rw [if_pos hlt]
    cases hb : baseColors cs with
    | nil => exact absurd hb hne
    | cons c rest =>
      refine ⟨_, rfl, by simp, fun _ => ?_⟩
      simp
  · rw [if_neg hlt]
    refine ⟨_, rfl, ?_, fun hlt2 => absurd hlt2 hlt⟩
    simp only [List.length_map, List.length_take]
    omega

/-- Witness for C2: the 8-color `'corporate'` scheme stretched to 10 series. -/
theorem C2_gradient_palette_witness :
    ∃ res, getGradientColors (ColorArg.name "corporate") 10 = some res ∧
      res.length = 10 ∧
      ((baseColors (ColorArg.name "corporate")).length < 10 →
        res = (List.range 10).map (fun i =>
          Color.interp ((baseColors (ColorArg.name "corporate")).headD "")
            ((baseColors (ColorArg.name "corporate")).getLastD "") i 10)) :=
  C2_gradient_palette (ColorArg.name "corporate") 10 (by decide)
    (fun l hl => ColorArg.noConfusion hl)

/-! ## Background styles and fallback behavior (`hdfc_viz.py`, lines 40-45, 240-242) -/

/-- A value of the `BG_STYLES` dict: the seaborn style name and the grid alpha. -/
structure StyleSettings : Type where
  style : String
  grid_alpha : ℚ
deriving DecidableEq

/-- Embedding of the `BG_STYLES` dict (`hdfc_viz.py`, lines 40-45). -/
def BG_STYLES : List (String × StyleSettings) :=
  [("default", ⟨"whitegrid", 3/10⟩),
   ("minimal", ⟨"white", 0⟩),
   ("classic", ⟨"darkgrid", 1/10⟩),
   ("presentation", ⟨"white", 2/10⟩)]

/-- Dict lookup in `BG_STYLES`. -/
def lookupBG (name : String) : Option StyleSettings :=
  (BG_STYLES.find? (fun p => p.1 == name)).map Prod.snd

/-- Embedding of `style_settings = BG_STYLES.get(bg_style, BG_STYLES['default'])`
(`plot_bar_chart`, line 241): an unknown style name falls back to the
`'default'` entry (the final `getD` default is unreachable since `'default'` is
a key of `BG_STYLES`). -/
def bgStyleSettings (name : String) : StyleSettings :=
  match lookupBG name with
  | some st => st
  | none => (lookupBG "default").getD ⟨"whitegrid", 3/10⟩

/-- C9: unrecognised style names never raise: an unknown `bg_style` gets the
`'default'` background settings, and a `color_scheme` name that is neither a
list nor a key of `COLOR_SCHEMES` gets the `'corporate'` palette, so
`_get_gradient_colors` behaves exactly as for `'corporate'` and returns a value
(no exception) for every series count. -/
theorem C9_unknown_names (bg scheme : String) (num : ℕ)
    (hbg : bg ∉ BG_STYLES.map Prod.fst)
    (hsch : scheme ∉ COLOR_SCHEMES.map Prod.fst) :
    bgStyleSettings bg = bgStyleSettings "default" ∧
    baseColors (ColorArg.name scheme) = corporateColors ∧
    getGradientColors (ColorArg.name scheme) num =
      getGradientColors (ColorArg.name "corporate") num ∧
    ∃ res, getGradientColors (ColorArg.name scheme) num = some res := by
  have hfbg : BG_STYLES.find? (fun p => p.1 == bg) = none := by
    rw [List.find?_eq_none]
    intro x hx
    simp only [beq_iff_eq]
    intro hx1
    exact hbg (hx1 ▸ List.mem_map_of_mem Prod.fst hx)
  have hfsch : COLOR_SCHEMES.find? (fun p => p.1 == scheme) = none := by
    rw [List.find?_eq_none]
    intro x hx
    simp only [beq_iff_eq]
    intro hx1
    exact hsch (hx1 ▸ List.mem_map_of_mem Prod.fst hx)
  have hb1 : baseColors (ColorArg.name scheme) = corporateColors := by
    show (match COLOR_SCHEMES.find? (fun p => p.1 == scheme) with
          | some p => p.2
          | none => corporateColors) = corporateColors
    rw [hfsch]
  have hb2 : baseColors (ColorArg.name "corporate") = corporateColors := by decide
  refine ⟨?_, hb1, ?_, ?_⟩
  · show (match lookupBG bg with
          | some st => st
          | none => (lookupBG "default").getD ⟨"whitegrid", 3/10⟩) = bgStyleSettings "default"
    rw [lookupBG, hfbg]
    rfl
  · unfold getGradientColors
    rw [hb1, hb2]
  · unfold getGradientColors
    rw [hb1]
    by_cases hlt : corporateColors.length < num
    · rw [if_pos hlt]
      exact ⟨_, rfl⟩
    · rw [if_neg hlt]
      exact ⟨_, rfl⟩

/-- Witness for C9 with the unknown names `"neon"` and `"rainbow"`. -/
theorem C9_unknown_names_witness :
    bgStyleSettings "neon" = bgStyleSettings "default" ∧
    baseColors (ColorArg.name "rainbow") = corporateColors ∧
    getGradientColors (ColorArg.name "rainbow") 3 =
      getGradientColors (ColorArg.name "corporate") 3 ∧
    ∃ res, getGradientColors (ColorArg.name "rainbow") 3 = some res :=
  C9_unknown_names "neon" "rainbow" 3 (by decide) (by decide)

/-! ## Per-sheet error handling (`generate_dashboard.py`, `main`, lines 49-86) -/

/-- Console lines produced by one iteration of the sheet loop in `main`
(`generate_dashboard.py`, lines 49-86): the `print` before the `try`, then
either the success message (with the number of chart groups) or the message of
the `except Exception` handler.  Loading the sheet and creating its dashboard
are abstracted as `process`, whose `Except.error` is the caught exception. -/
def sheetLogLines (process : String → Except String ℕ) (sheet : String) : List String :=
  ("Processing sheet: " ++ sheet) ::
    (match process sheet with
     | Except.ok n => ["  - Generated " ++ toString n ++ " chart groups for " ++ sheet]
     | Except.error e => ["Error processing sheet " ++ sheet ++ ": " ++ e])

/-- Embedding of the whole sheet loop: the lines printed to the console, in
order, over all sheets. -/
def mainSheetLoop (process : String → Except String ℕ) (sheets : List String) : List String :=
  sheets.foldl (fun log sheet => log ++ sheetLogLines process sheet) []

theorem foldl_log_eq_flatMap (f : String → List String) (init : List String)
    (l : List String) :
    l.foldl (fun log s => log ++ f s) init = init ++ l.flatMap f := by
  induction l generalizing init with
  | nil => simp
  | cons x xs ih => simp [ih, List.append_assoc]

theorem sheetLogLines_length (process : String → Except String ℕ) (sheet : String) :
    (sheetLogLines process sheet).length = 2 := by
  unfold sheetLogLines
  cases process sheet <;> rfl

/-- C3: every sheet in the list is processed: the loop's output decomposes
sheet by sheet, each sheet contributes exactly its own two console lines
whether or not its processing fails, a failing sheet contributes the error
message naming it, and in particular no failure removes the lines of the
remaining sheets. -/
theorem C3_errors_caught (process : String → Except String ℕ) (sheets : List String) :
    (∀ sheet rest, sheets = sheet :: rest →
      mainSheetLoop process sheets =
        sheetLogLines process sheet ++ mainSheetLoop process rest) ∧
    (∀ sheet ∈ sheets, "Processing sheet: " ++ sheet ∈ mainSheetLoop process sheets) ∧
    (∀ sheet ∈ sheets, ∀ e, process sheet = Except.error e →
      "Error processing sheet " ++ sheet ++ ": " ++ e ∈ mainSheetLoop process sheets) ∧
    (mainSheetLoop process sheets).length = 2 * sheets.length := by
  have hflat : ∀ l : List String,
      mainSheetLoop process l = l.flatMap (sheetLogLines process) := by
    intro l
    unfold mainSheetLoop
    rw [foldl_log_eq_flatMap]
    rfl
  refine ⟨?_, ?_, ?_, ?_⟩
  · intro sheet rest hrest
    subst hrest
    rw [hflat, hflat, List.flatMap_cons]
  · intro sheet hs
    rw [hflat, List.mem_flatMap]
    exact ⟨sheet, hs, List.mem_cons_self _ _⟩
  · intro sheet hs e he
    rw [hflat, List.mem_flatMap]
    refine ⟨sheet, hs, ?_⟩
    unfold sheetLogLines
    rw [he]
    simp
  · rw [hflat, List.length_flatMap]
    induction sheets with
    | nil => rfl
    | cons x xs ih =>
      simp only [List.map_cons, List.sum_cons, Function.comp_apply,
        sheetLogLines_length, List.length_cons, ih]
      omega

/-- Witness for C3: two sheets, the first failing, the second succeeding. -/
theorem C3_errors_caught_witness :
    (mainSheetLoop
        (fun s => if s == "Data" then Except.error "boom" else Except.ok 2)
        ["Data", "Summary"]).length = 2 * (["Data", "Summary"] : List String).length ∧
    "Error processing sheet Data: boom" ∈
      mainSheetLoop
        (fun s => if s == "Data" then Except.error "boom" else Except.ok 2)
        ["Data", "Summary"] := by
  obtain ⟨h1, h2, h3, h4⟩ :=
    C3_errors_caught
      (fun s => if s == "Data" then Except.error "boom" else Except.ok 2)
      ["Data", "Summary"]
  refine ⟨h4, ?_⟩
  have := h3 "Data" (by simp) "boom" (by rfl)
  simpa using this

/-! ## Value formatting (`_format_value`, `hdfc_viz.py`, lines 47-81) -/

/-- The result of `_format_value`, with the f-string rendering abstracted into
constructors: `percent v p` stands for `f'{v:.{p}%}'`, `commaInt n` for the
comma-grouped `f'{int(v):,}'`, and `fixed v p` for `f'{v:.{p}f}'`. -/
inductive Formatted : Type
  | na
  | percent (v : ℚ) (precision : ℕ)
  | commaInt (n : ℤ)
  | fixed (v : ℚ) (precision : ℕ)
deriving DecidableEq

/-- Python `int()` truncation toward zero on a rational. -/
def truncInt (v : ℚ) : ℤ := if v < 0 then ⌈v⌉ else ⌊v⌋

/-- Embedding of `_format_value` (`hdfc_viz.py`, lines 47-81) over exact
rationals; a pandas `NaN` input is modelled as `none`.  Python `round` rounds
half to even, but it only appears in the test `abs(value - round(value)) < 0.01`
whose truth value is the same for any nearest integer, so Lean's `round` is
used.  `abs(value) % 1` is the fractional part `Int.fract |v|`. -/
def formatValue (value : Option ℚ) (is_percentage : Bool) (precision : Option ℕ) :
    Formatted :=
  match value with
  | none => Formatted.na
  | some v =>
    if is_percentage then
      Formatted.percent v
        (match precision with
         | some p => p
         | none => if |v| < 1/100 then 2 else 1)
    else if |v - (round v : ℚ)| < 1/100 ∧ 10 ≤ v then
      Formatted.commaInt (truncInt v)
    else
      let p : ℕ :=
        match precision with
        | some p => p
        | none =>
          if |v| < 1/100 then 4
          else if |v| < 1/10 then 3
          else if |v| < 1 then 2
          else if |v| < 10 then 1
          else if Int.fract |v| < 1/100 then 0
          else 2
      if p = 0 then Formatted.commaInt (truncInt v) else Formatted.fixed v p

/-- The reference definition of claim C4, written from the claim's words (for
the inputs it describes, i.e. precision unspecified): NaN maps to `"N/A"`; with
`is_percentage` a percent string with 2 decimals when `|v| < 0.01` and 1
otherwise; otherwise a value within 0.01 of an integer and `≥ 10` is a
comma-grouped integer, and else the precision comes from the magnitude ladder,
with `|v| ≥ 10` giving a comma-grouped integer when the fractional part of
`|v|` is below 0.01 and 2 decimals otherwise. -/
def formatValueSpec (value : Option ℚ) (is_percentage : Bool) : Formatted :=
  match value with
  | none => Formatted.na
  | some v =>
    if is_percentage then
      Formatted.percent v (if |v| < 1/100 then 2 else 1)
    else if |v - (round v : ℚ)| < 1/100 ∧ 10 ≤ v then
      Formatted.commaInt (truncInt v)
    else if |v| < 1/100 then Formatted.fixed v 4
    else if |v| < 1/10 then Formatted.fixed v 3
    else if |v| < 1 then Formatted.fixed v 2
    else if |v| < 10 then Formatted.fixed v 1
    else if Int.fract |v| < 1/100 then Formatted.commaInt (truncInt v)
    else Formatted.fixed v 2

/-- C4: on every input the reference definition describes (any value, any
percentage flag, precision unspecified), `_format_value` agrees with it. -/
theorem C4_format_value (value : Option ℚ) (is_percentage : Bool) :
    formatValue value is_percentage none = formatValueSpec value is_percentage := by
  cases value with
  | none => rfl
  | some v =>
    cases is_percentage with
    | true => rfl
    | false =>
      show formatValue (some v) false none = formatValueSpec (some v) false
      unfold formatValue formatValueSpec
      dsimp only
      simp only [Bool.false_eq_true, if_false]
      by_cases h0 : |v - (round v : ℚ)| < 1/100 ∧ 10 ≤ v
      · rw [if_pos h0, if_pos h0]
      · rw [if_neg h0, if_neg h0]
        by_cases h2 : |v| < 1/100
        · rw [if_pos h2, if_pos h2]; simp
        · rw [if_neg h2, if_neg h2]
          by_cases h3 : |v| < 1/10
          · rw [if_pos h3, if_pos h3]; simp
          · rw [if_neg h3, if_neg h3]
            by_cases h4 : |v| < 1
            · rw [if_pos h4, if_pos h4]; simp
            · rw [if_neg h4, if_neg h4]
              by_cases h5 : |v| < 10
              · rw [if_pos h5, if_pos h5]; simp
              · rw [if_neg h5, if_neg h5]
                by_cases h6 : Int.fract |v| < 1/100
                · rw [if_pos h6, if_pos h6]; simp
                · rw [if_neg h6, if_neg h6]; simp

/-! ## Percentage detection and y-axis labels (`plot_bar_chart`, lines 259-268, 301-323) -/

/-- One entry of the `value_format` dict: `{'is_percentage': bool, 'precision': int}`
with Python `.get` defaults `False` and `None`. -/
structure ValueFmt : Type where
  is_percentage : Bool
  precision : Option ℕ
deriving DecidableEq

/-- Lookup of a column in the optional `value_format` dict (`plot_bar_chart`,
line 263, `if value_format and col in value_format`); an absent dict, an empty
dict and an absent key all give `none`. -/
def lookupValueFmt (value_format : Option (List (String × ValueFmt))) (col : String) :
    Option ValueFmt :=
  match value_format with
  | none => none
  | some vf => (vf.find? (fun p => p.1 == col)).map Prod.snd

/-- Python `col.lower()` as a character list: `str.lower` maps each character to
its lower-case form (for the ASCII column names here, `Char.toLower`). -/
def pyLower (s : String) : List Char := s.data.map Char.toLower

/-- Embedding of the auto-detection `is_percentage = '%' in col.lower()`
(`plot_bar_chart`, line 268). -/
def autoDetectPct (col : String) : Bool := (pyLower col).contains '%'

/-- Embedding of the `is_percentage` choice for one plotted column
(`plot_bar_chart`, lines 259-268). -/
def columnIsPercentage (value_format : Option (List (String × ValueFmt))) (col : String) :
    Bool :=
  match lookupValueFmt value_format col with
  | some fmt => fmt.is_percentage
  | none => autoDetectPct col

/-- Embedding of the `precision` choice for one plotted column
(`plot_bar_chart`, lines 261-265). -/
def columnPrecision (value_format : Option (List (String × ValueFmt))) (col : String) :
    Option ℕ :=
  match lookupValueFmt value_format col with
  | some fmt => fmt.precision
  | none => none

/-- The `ylabels` argument of `plot_bar_chart`: a dict mapping column names to
labels, or a single string for all columns. -/
inductive YLabels : Type
  | dict (m : List (String × String))
  | single (s : String)

/-- Embedding of the y-axis label choice (`plot_bar_chart`, lines 301-319):
an explicit `ylabels` entry wins (with `"Value"` for columns missing from a
dict), otherwise `"Percentage"` for percentage columns, `"Count"` when every
value is (within 0.01 of) an integer, and `"Value"` otherwise. -/
def chooseYLabel (ylabels : Option YLabels) (col : String)
    (is_percentage allIntegers : Bool) : String :=
  match ylabels with
  | some (YLabels.dict m) =>
    match (m.find? (fun p => p.1 == col)).map Prod.snd with
    | some lbl => lbl
    | none => "Value"
  | some (YLabels.single s) => s
  | none =>
    if is_percentage then "Percentage"
    else if allIntegers then "Count"
    else "Value"

theorem toLower_eq_iff_small (c t : Char) (ht : t.toNat < 65) :
    c.toLower = t ↔ c = t := by
  constructor
  · intro h
    simp only [Char.toLower] at h
    split at h
    · rename_i hc
      exfalso
      obtain ⟨hc1, hc2⟩ := hc
      have hval : (Char.ofNat (c.toNat + 32)).toNat = c.toNat + 32 := by
        have hv : (c.toNat + 32).isValidChar := Or.inl (by omega)
        rw [Char.ofNat, dif_pos hv, Char.ofNatAux, Char.toNat]
        simp [UInt32.toNat, BitVec.toNat_ofNatLt]
      have := congrArg Char.toNat h
      rw [hval] at this
      omega
    · exact h
  · intro h
    subst h
    simp only [Char.toLower]
    split
    · rename_i hc
      exfalso
      omega
    · rfl

theorem mem_map_toLower (l : List Char) (t : Char) (ht : t.toNat < 65) :
    t ∈ l.map Char.toLower ↔ t ∈ l := by
  simp only [List.mem_map]
  constructor
  · rintro ⟨c, hc, hct⟩
    exact (toLower_eq_iff_small c t ht).mp hct ▸ hc
  · intro h
    exact ⟨t, h, (toLower_eq_iff_small t t ht).mpr rfl⟩

/-- C6: for a plotted column with no `value_format` entry, the column is treated
as percentage data if and only if `'%'` occurs in its name; in that case the
bar value labels are formatted as percent strings (with the automatic 2-or-1
decimal precision, since the precision is also unset) and the default y-axis
label (no `ylabels` argument) is `"Percentage"`. -/
theorem C6_percent_detection (value_format : Option (List (String × ValueFmt)))
    (col : String) (allIntegers : Bool)
    (h : lookupValueFmt value_format col = none) :
    (columnIsPercentage value_format col = true ↔ '%' ∈ col.data) ∧
    (columnIsPercentage value_format col = true →
      (∀ v : ℚ, formatValue (some v) (columnIsPercentage value_format col)
          (columnPrecision value_format col) =
        Formatted.percent v (if |v| < 1/100 then 2 else 1)) ∧
      chooseYLabel none col (columnIsPercentage value_format col) allIntegers =
        "Percentage") := by
  have hip : columnIsPercentage value_format col = autoDetectPct col := by
    unfold columnIsPercentage
    rw [h]
  have hpr : columnPrecision value_format col = none := by
    unfold columnPrecision
    rw [h]
  constructor
  · rw [hip]
    unfold autoDetectPct pyLower
    have hcm : ((List.map Char.toLower col.data).contains '%' = true) ↔
        '%' ∈ List.map Char.toLower col.data := by simp
    rw [hcm]
    exact mem_map_toLower col.data '%' (by decide)
  · intro htrue
    refine ⟨fun v => ?_, ?_⟩
    · rw [htrue, hpr]
      rfl
    · unfold chooseYLabel
      rw [htrue]
      rfl

/-- Witness for C6 on the column name `"Growth %"` with no format entry. -/
theorem C6_percent_detection_witness :
    (columnIsPercentage none "Growth %" = true ↔ '%' ∈ "Growth %".data) ∧
    (columnIsPercentage none "Growth %" = true →
      (∀ v : ℚ, formatValue (some v) (columnIsPercentage none "Growth %")
          (columnPrecision none "Growth %") =
        Formatted.percent v (if |v| < 1/100 then 2 else 1)) ∧
      chooseYLabel none "Growth %" (columnIsPercentage none "Growth %") false =
        "Percentage") :=
  C6_percent_detection none "Growth %" false rfl

/-! ## Subtotal removal (`remove_subtotal.py`, lines 22-53) -/

/-- A spreadsheet cell as read by pandas: a string or a number. -/
inductive Cell : Type
  | str (s : String)
  | num (q : ℚ)
deriving DecidableEq

/-- The `"Sub total"` label the script removes. -/
def subtotalCell : Cell := Cell.str "Sub total"

/-- A sheet of the workbook: the header row and the data rows, one cell per
header column. -/
structure Sheet : Type where
  header : List String
  rows : List (List Cell)
deriving DecidableEq

/-- Position of the `"Category"` column: `pd.read_excel(..., index_col="Category")`
succeeds (`has_category_index = True`, `remove_subtotal.py` lines 29-34) exactly
when the header contains a `"Category"` column. -/
def categoryIdx (s : Sheet) : Option ℕ := s.header.findIdx? (fun c => c == "Category")

/-- One step of the mask loop (`remove_subtotal.py`, lines 44-48):
`mask = df[col] == "Sub total"; if mask.any(): df = df[~mask]`. -/
def dropMaskCol (rows : List (List Cell)) (j : ℕ) : List (List Cell) :=
  if rows.any (fun r => r[j]? == some subtotalCell) then
    rows.filter (fun r => !(r[j]? == some subtotalCell))
  else rows

/-- The whole `for col in df.columns` mask loop (`remove_subtotal.py`,
lines 43-48), iterating `dropMaskCol` over the column positions in order. -/
def dropMaskCols (rows : List (List Cell)) (ncols : ℕ) : List (List Cell) :=
  (List.range ncols).foldl dropMaskCol rows

/-- Embedding of the per-sheet processing of `remove_subtotal.py` (lines 28-53):
with a `"Category"` column, the rows indexed `"Sub total"` are dropped when
present (`df.drop("Sub total")`); otherwise, when some cell equals
`"Sub total"` (`"Sub total" in df.values`), the mask loop filters each column in
turn.  The header is written back unchanged. -/
def processSheet (s : Sheet) : Sheet :=
  match categoryIdx s with
  | some j =>
    if s.rows.any (fun r => r[j]? == some subtotalCell) then
      { s with rows := s.rows.filter (fun r => !(r[j]? == some subtotalCell)) }
    else s
  | none =>
    if s.rows.any (fun r => r.contains subtotalCell) then
      { s with rows := dropMaskCols s.rows s.header.length }
    else s

/-- Embedding of the whole script: every sheet of the input workbook is written
to `HDFC_modified.xlsx` under its own name, processed. -/
def removeSubtotalWorkbook (wb : List (String × Sheet)) : List (String × Sheet) :=
  wb.map (fun p => (p.1, processSheet p.2))

/-- A row "labelled `Sub total`": its `"Category"` cell when the sheet has a
`Category` column, otherwise any of its cells, equals `"Sub total"`. -/
def rowIsSubtotal (s : Sheet) (r : List Cell) : Bool :=
  match categoryIdx s with
  | some j => r[j]? == some subtotalCell
  | none => r.contains subtotalCell

theorem dropMaskCol_eq_filter (rows : List (List Cell)) (j : ℕ) :
    dropMaskCol rows j = rows.filter (fun r => !(r[j]? == some subtotalCell)) := by
  unfold dropMaskCol
  split
  · rfl
  · rename_i hany
    rw [eq_comm, List.filter_eq_self]
    intro r hr
    simp at hany
    simp [hany r hr]

theorem dropMaskCols_eq_filter (rows : List (List Cell)) (ncols : ℕ) :
    dropMaskCols rows ncols =
      rows.filter (fun r => decide (∀ j < ncols, ¬ r[j]? = some subtotalCell)) := by
  induction ncols with
  | zero =>
    unfold dropMaskCols
    rw [List.range_zero, List.foldl_nil, eq_comm, List.filter_eq_self]
    intro r hr
    simp
  | succ n ih =>
    have hstep : dropMaskCols rows (n + 1) = dropMaskCol (dropMaskCols rows n) n := by
      unfold dropMaskCols
      rw [List.range_succ, List.foldl_append, List.foldl_cons, List.foldl_nil]
    rw [hstep, ih, dropMaskCol_eq_filter, List.filter_filter]
    apply List.filter_congr
    intro r hr
    by_cases hn : r[n]? = some subtotalCell
    · have hno : ¬ (∀ j < n + 1, ¬ r[j]? = some subtotalCell) := by
        intro hall
        exact hall n (Nat.lt_succ_self n) hn
      simp [hn, hno]
    · by_cases hall : ∀ j < n, ¬ r[j]? = some subtotalCell
      · have hall2 : ∀ j < n + 1, ¬ r[j]? = some subtotalCell := by
          intro j hj
          rcases Nat.lt_succ_iff_lt_or_eq.mp hj with hlt | heq
          · exact hall j hlt
          · rw [heq]; exact hn
        have e1 : decide (∀ j < n, ¬ r[j]? = some subtotalCell) = true :=
          decide_eq_true hall
        have e2 : decide (∀ j < n + 1, ¬ r[j]? = some subtotalCell) = true :=
          decide_eq_true hall2
        have e3 : (r[n]? == some subtotalCell) = false := by simp [hn]
        rw [e1, e2, e3]
        rfl
      · have hall2 : ¬ ∀ j < n + 1, ¬ r[j]? = some subtotalCell := by
          intro hforall
          exact hall (fun j hj => hforall j (Nat.lt_succ_of_lt hj))
        have e1 : decide (∀ j < n, ¬ r[j]? = some subtotalCell) = false :=
          decide_eq_false hall
        have e2 : decide (∀ j < n + 1, ¬ r[j]? = some subtotalCell) = false :=
          decide_eq_false hall2
        rw [e1, e2]
        simp

theorem forall_getElem_ne_iff (r : List Cell) (n : ℕ) (hlen : r.length = n) :
    (∀ j < n, ¬ r[j]? = some subtotalCell) ↔ subtotalCell ∉ r := by
  subst hlen
  constructor
  · intro h hmem
    obtain ⟨j, hj, hget⟩ := List.mem_iff_getElem.mp hmem
    exact h j hj (by rw [List.getElem?_eq_getElem hj, hget])
  · intro h j hj hget
    rw [List.getElem?_eq_getElem hj] at hget
    exact h ((Option.some.injEq _ _).mp hget ▸ List.getElem_mem hj)

theorem Sheet.eq_of_fields {a b : Sheet} (h1 : a.header = b.header)
    (h2 : a.rows = b.rows) : a = b := by
  cases a
  cases b
  simp_all

/-- C5: for every well-formed sheet (each row has one cell per header column),
the sheet written to `HDFC_modified.xlsx` is the input sheet with exactly the
rows labelled `"Sub total"` removed and every other row unchanged and in order
(the output rows are the filter of the input rows); a sheet with no
`"Sub total"` row is written unchanged, and every sheet of the workbook appears
in the output under the same name. -/
theorem C5_subtotal_rows (s : Sheet) (hwf : ∀ r ∈ s.rows, r.length = s.header.length)
    (wb : List (String × Sheet)) :
    (processSheet s).header = s.header ∧
    (processSheet s).rows = s.rows.filter (fun r => !(rowIsSubtotal s r)) ∧
    ((∀ r ∈ s.rows, rowIsSubtotal s r = false) → processSheet s = s) ∧
    (removeSubtotalWorkbook wb).map Prod.fst = wb.map Prod.fst := by
  have hheader : (processSheet s).header = s.header := by
    unfold processSheet
    cases categoryIdx s <;> dsimp only <;> split <;> rfl
  have hrows : (processSheet s).rows = s.rows.filter (fun r => !(rowIsSubtotal s r)) := by
    unfold processSheet rowIsSubtotal
    cases hc : categoryIdx s with
    | some j =>
      dsimp only
      split
      · rfl
      · rename_i hany
        rw [eq_comm, List.filter_eq_self]
        intro r hr
        simp at hany
        simp [hany r hr]
    | none =>
      dsimp only
      split
      · rename_i hany
        show dropMaskCols s.rows s.header.length = _
        rw [dropMaskCols_eq_filter]
        apply List.filter_congr
        intro r hr
        have hiff := forall_getElem_ne_iff r s.header.length (hwf r hr)
        by_cases hmem : subtotalCell ∈ r
        · have h1 : decide (∀ j < s.header.length, ¬ r[j]? = some subtotalCell) = false :=
            decide_eq_false (fun hp => (hiff.mp hp) hmem)
          have h2 : r.contains subtotalCell = true := by simp [hmem]
          rw [h1, h2]
          rfl
        · have h1 : decide (∀ j < s.header.length, ¬ r[j]? = some subtotalCell) = true :=
            decide_eq_true (hiff.mpr hmem)
          have h2 : r.contains subtotalCell = false := by simp [hmem]
          rw [h1, h2]
          rfl
      · rename_i hany
        rw [eq_comm, List.filter_eq_self]
        intro r hr
        simp at hany
        have : ¬ subtotalCell ∈ r := by
          intro hm
          exact absurd hm (by simpa using hany r hr)
        simp [this]
  refine ⟨hheader, hrows, ?_, ?_⟩
  · intro hnone
    apply Sheet.eq_of_fields hheader
    rw [hrows, List.filter_eq_self]
    intro r hr
    rw [hnone r hr]
    rfl
  · unfold removeSubtotalWorkbook
    rw [List.map_map]
    rfl

/-- Witness for C5: a two-row sheet with a `Category` index and one
`"Sub total"` row, in a one-sheet workbook. -/
theorem C5_subtotal_rows_witness :
    (processSheet ⟨["Category", "Count"],
        [[Cell.str "Sub total", Cell.num 8], [Cell.str "B", Cell.num 5]]⟩).header =
      ["Category", "Count"] ∧
    (processSheet ⟨["Category", "Count"],
        [[Cell.str "Sub total", Cell.num 8], [Cell.str "B", Cell.num 5]]⟩).rows =
      ([[Cell.str "Sub total", Cell.num 8], [Cell.str "B", Cell.num 5]]).filter
        (fun r => !(rowIsSubtotal ⟨["Category", "Count"],
          [[Cell.str "Sub total", Cell.num 8], [Cell.str "B", Cell.num 5]]⟩ r)) ∧
    ((∀ r ∈ ([[Cell.str "Sub total", Cell.num 8], [Cell.str "B", Cell.num 5]] :
        List (List Cell)), rowIsSubtotal ⟨["Category", "Count"],
          [[Cell.str "Sub total", Cell.num 8], [Cell.str "B", Cell.num 5]]⟩ r = false) →
      processSheet ⟨["Category", "Count"],
          [[Cell.str "Sub total", Cell.num 8], [Cell.str "B", Cell.num 5]]⟩ =
        ⟨["Category", "Count"],
          [[Cell.str "Sub total", Cell.num 8], [Cell.str "B", Cell.num 5]]⟩) ∧
    (removeSubtotalWorkbook [("S1", ⟨["Category", "Count"],
        [[Cell.str "Sub total", Cell.num 8], [Cell.str "B", Cell.num 5]]⟩)]).map Prod.fst =
      ([("S1", (⟨["Category", "Count"],
        [[Cell.str "Sub total", Cell.num 8], [Cell.str "B", Cell.num 5]]⟩ : Sheet))]).map
        Prod.fst := by
  have h := C5_subtotal_rows
    ⟨["Category", "Count"], [[Cell.str "Sub total", Cell.num 8], [Cell.str "B", Cell.num 5]]⟩
    (by decide)
    [("S1", ⟨["Category", "Count"],
      [[Cell.str "Sub total", Cell.num 8], [Cell.str "B", Cell.num 5]]⟩)]
  exact h

/-! ## Dashboard chart groups and save paths (`create_dashboard`, lines 455-537) -/

/-- Python `p.lower()` on a path string. -/
def pyLowerStr (s : String) : String := String.mk (s.data.map Char.toLower)

/-- The image extensions checked by `create_dashboard` (line 509). -/
def imageExts : List String := [".png", ".jpg", ".jpeg", ".pdf", ".svg"]

/-- Embedding of `output_path.lower().endswith(('.png', '.jpg', '.jpeg', '.pdf', '.svg'))`
(`create_dashboard`, line 509). -/
def hasImageExt (p : String) : Bool :=
  imageExts.any (fun e => decide (e.data <:+ (pyLowerStr p).data))

/-- Python `rsplit('.', 1)` on a character list: split at the last `'.'`,
`none` when there is no dot (in which case the Python two-element unpacking
would fail; unreachable under the extension guard). -/
def rsplitDot : List Char → Option (List Char × List Char)
  | [] => none
  | c :: cs =>
    match rsplitDot cs with
    | some (b, e) => some (c :: b, e)
    | none => if c == '.' then some ([], cs) else none

/-- Embedding of the save-path computation of `create_dashboard`
(lines 506-514): with an image extension, `"_group{i+1}"` goes between the
`rsplit('.', 1)` base and extension; otherwise `"_group{i+1}.png"` is appended. -/
def savePathFor (output_path : Option String) (i : ℕ) : Option String :=
  match output_path with
  | none => none
  | some p =>
    if hasImageExt p then
      match rsplitDot p.data with
      | some (b, e) =>
        some (String.mk b ++ "_group" ++ toString (i + 1) ++ "." ++ String.mk e)
      | none => none
    else
      some (p ++ "_group" ++ toString (i + 1) ++ ".png")

/-- The data `create_dashboard` computes for the `plot_bar_chart` call of one
column group (lines 475-535): the group's columns, the cycled color scheme
(`color_schemes[i % len(color_schemes)]`, line 477) and the save path. -/
structure ChartSpec : Type where
  columns : List String
  colorScheme : String
  savePath : Option String
deriving DecidableEq

/-- Embedding of the `for i, columns in enumerate(column_groups)` loop of
`create_dashboard`: one `plot_bar_chart` call, hence one `(fig, axes)` result
pair, per column group in order. -/
def createDashboardSpecs (groups : List (List String)) (schemes : List String)
    (output_path : Option String) : List ChartSpec :=
  groups.enum.map (fun q =>
    { columns := q.2,
      colorScheme := schemes.getD (q.1 % schemes.length) "corporate",
      savePath := savePathFor output_path q.1 })

theorem rsplitDot_append (l : List Char) :
    ∀ b e, rsplitDot l = some (b, e) → l = b ++ '.' :: e := by
  induction l with
  | nil => intro b e h; simp [rsplitDot] at h
  | cons c cs ih =>
    intro b e h
    rw [rsplitDot] at h
    cases hcs : rsplitDot cs with
    | some pr =>
      obtain ⟨b0, e0⟩ := pr
      rw [hcs] at h
      simp only [Option.some.injEq, Prod.mk.injEq] at h
      obtain ⟨hb, he⟩ := h
      subst hb
      subst he
      simp only [List.cons_append, List.cons.injEq]
      exact ⟨trivial, ih b0 e0 hcs⟩
    | none =>
      rw [hcs] at h
      dsimp only at h
      split at h
      · rename_i hc
        simp only [Option.some.injEq, Prod.mk.injEq] at h
        obtain ⟨hb, he⟩ := h
        subst hb
        subst he
        simp only [beq_iff_eq] at hc
        rw [hc]
        rfl
      · exact absurd h (by simp)

theorem rsplitDot_ne_none (l : List Char) (h : '.' ∈ l) : rsplitDot l ≠ none := by
  induction l with
  | nil => simp at h
  | cons c cs ih =>
    rw [rsplitDot]
    cases hcs : rsplitDot cs with
    | some pr =>
      dsimp only
      simp
    | none =>
      dsimp only
      rcases List.mem_cons.mp h with hc | hc
      · rw [if_pos (by simp [hc.symm])]
        simp
      · exact absurd hcs (ih hc)

theorem hasImageExt_dot (p : String) (h : hasImageExt p = true) : '.' ∈ p.data := by
  unfold hasImageExt at h
  rw [List.any_eq_true] at h
  obtain ⟨e, he, hsuf⟩ := h
  rw [decide_eq_true_eq] at hsuf
  have hdot : '.' ∈ e.data := by
    fin_cases he <;> decide
  have hmem : '.' ∈ (pyLowerStr p).data := hsuf.subset hdot
  unfold pyLowerStr at hmem
  exact (mem_map_toLower p.data '.' (by decide)).mp hmem

/-- C10: `create_dashboard` produces exactly one chart per column group, in
group order; the group at index `i` carries the columns of group `i` and the
color scheme `color_schemes[i mod len(color_schemes)]`; and when `output_path`
is given, the `i`-th group is saved to `output_path` with `"_group{i+1}"`
inserted before the image extension when the path ends in
`.png/.jpg/.jpeg/.pdf/.svg` (`base ++ "." ++ ext` reconstructs the path), or to
`output_path ++ "_group{i+1}.png"` otherwise. -/
theorem C10_dashboard_groups (groups : List (List String)) (schemes : List String)
    (output_path : Option String) (hs : schemes ≠ []) (i : ℕ) (hi : i < groups.length) :
    (createDashboardSpecs groups schemes output_path).length = groups.length ∧
    ((createDashboardSpecs groups schemes output_path)[i]?).map ChartSpec.columns =
      groups[i]? ∧
    ((createDashboardSpecs groups schemes output_path)[i]?).map ChartSpec.colorScheme =
      schemes[i % schemes.length]? ∧
    (∀ p, output_path = some p → hasImageExt p = true →
      ∃ b e, rsplitDot p.data = some (b, e) ∧
        p = String.mk b ++ "." ++ String.mk e ∧
        ((createDashboardSpecs groups schemes output_path)[i]?).map ChartSpec.savePath =
          some (some (String.mk b ++ "_group" ++ toString (i + 1) ++ "." ++ String.mk e))) ∧
    (∀ p, output_path = some p → hasImageExt p = false →
      ((createDashboardSpecs groups schemes output_path)[i]?).map ChartSpec.savePath =
        some (some (p ++ "_group" ++ toString (i + 1) ++ ".png"))) := by
  have hmodlt : i % schemes.length < schemes.length :=
    Nat.mod_lt i (List.length_pos.mpr hs)
  have hgetl : (createDashboardSpecs groups schemes output_path)[i]? =
      some { columns := groups.get ⟨i, hi⟩,
             colorScheme := schemes.getD (i % schemes.length) "corporate",
             savePath := savePathFor output_path i } := by
    unfold createDashboardSpecs
    rw [List.getElem?_map, List.getElem?_enum, List.getElem?_eq_getElem hi]
    rfl
  refine ⟨?_, ?_, ?_, ?_, ?_⟩
  · unfold createDashboardSpecs
    simp
  · rw [hgetl, List.getElem?_eq_getElem hi]
    rfl
  · rw [hgetl, List.getElem?_eq_getElem hmodlt]
    simp only [Option.map_some']
    rw [List.getD_eq_getElem?_getD, List.getElem?_eq_getElem hmodlt]
    rfl
  · intro p hp hext
    subst hp
    obtain ⟨pr, hpr⟩ :=
      Option.ne_none_iff_exists.mp (rsplitDot_ne_none p.data (hasImageExt_dot p hext))
    obtain ⟨b, e⟩ := pr
    refine ⟨b, e, hpr.symm, ?_, ?_⟩
    · apply String.ext
      rw [rsplitDot_append p.data b e hpr.symm]
      simp [String.data_append]
    · rw [hgetl]
      simp only [Option.map_some']
      unfold savePathFor
      dsimp only
      rw [if_pos hext, hpr.symm]
  · intro p hp hext
    subst hp
    rw [hgetl]
    simp only [Option.map_some']
    unfold savePathFor
    dsimp only
    rw [if_neg (by rw [hext]; simp)]

/-- Witness for C10: three groups, one scheme, an extension-less output path,
at group index 1. -/
theorem C10_dashboard_groups_witness :
    (createDashboardSpecs [["a"], ["b"], ["c"]] ["hdfc_brand"] (some "out")).length = 3 ∧
    ((createDashboardSpecs [["a"], ["b"], ["c"]] ["hdfc_brand"] (some "out"))[1]?).map
        ChartSpec.colorScheme = (["hdfc_brand"] : List String)[1 % 1]? ∧
    ((createDashboardSpecs [["a"], ["b"], ["c"]] ["hdfc_brand"] (some "out"))[1]?).map
        ChartSpec.savePath =
      some (some ("out" ++ "_group" ++ toString (1 + 1) ++ ".png")) := by
  obtain ⟨h1, h2, h3, h4, h5⟩ :=
    C10_dashboard_groups [["a"], ["b"], ["c"]] ["hdfc_brand"] (some "out")
      (by decide) 1 (by decide)
  have hext : hasImageExt "out" = false := by decide
  exact ⟨by simpa using h1, h3, h5 "out" rfl hext⟩
